import Mathlib

/-!
# syncmap: a typed wrapper over Go's `sync.Map`

A shallow embedding of `src/map.go`.  The wrapper `Map[K, V]` forwards every call to an
erased store whose keys and values are Go interface values (`any`), converting typed
arguments to `any` on the way in and narrowing results back with a type assertion
`x.(V)` on the way out.  The embedding therefore has three layers:

* `GoAny`, `GoType`: run-time interface values, conversion to `any`, type assertion;
* `SyncMap`: the erased store, as a sequential association list;
* `Map`: the wrapper methods of `src/map.go`, one definition per method.
-/

set_option autoImplicit false
set_option linter.unusedSectionVars false

namespace Syncmap

/-! ## Go run-time values -/

/-- Run-time panics that the wrapper or the erased store can raise. -/
inductive Fault where
  /-- Failed type assertion `x.(V)` ("interface conversion"). -/
  | narrow
  /-- Comparison of two interface values of one uncomparable dynamic type. -/
  | uncomparable
deriving DecidableEq, Repr

deriving instance DecidableEq for Except

/-- Go interface value of type `any`: the nil interface, or a dynamic type `ty`
together with a value `val` of that type. -/
inductive GoAny (T P : Type) where
  | nil : GoAny T P
  | dyn (ty : T) (val : P) : GoAny T P
deriving DecidableEq, Repr

/-- Dynamic types know whether their values support `==`.  The flag is true for the types
on whose values `==` never panics; slices, maps and functions, on which it always
panics, have it false.  A composite with interface parts, on which `==` panics for some
values only, has no exact flag: it is taken as false, which errs towards the panic. -/
class DynType (T : Type) where
  /-- Whether `==` on two values of the dynamic type is free of a panic. -/
  comparable : T → Bool

/-- Go's `==` on two interface values: equal when both are nil, or when the dynamic
types are identical and the values equal; comparing two values of one uncomparable
dynamic type panics. -/
def GoAny.eq {T P : Type} [DecidableEq T] [DecidableEq P] [DynType T] :
    GoAny T P → GoAny T P → Except Fault Bool
  | GoAny.nil, GoAny.nil => Except.ok true
  | GoAny.nil, GoAny.dyn _ _ => Except.ok false
  | GoAny.dyn _ _, GoAny.nil => Except.ok false
  | GoAny.dyn t p, GoAny.dyn t' p' =>
    if t = t' then
      if DynType.comparable t = true then Except.ok (decide (p = p'))
      else Except.error Fault.uncomparable
    else Except.ok false

/-- Method-set test: the nil interface and every value whose dynamic type is in `impl`
are values of the interface type described by `impl`. -/
def GoAny.implements {T P : Type} (impl : T → Bool) : GoAny T P → Bool
  | GoAny.nil => true
  | GoAny.dyn t _ => impl t

/-- A static Go type `V` as the wrapper sees it: its zero value (`var value V`), the
implicit conversion of a `V` to `any` at a call of the erased store, and the type
assertion `x.(V)` (`none` when it panics).  The four laws are the Go rules for these:
a type assertion on the nil interface always fails; asserting a converted non-nil value
gives the value back; an assertion that succeeds returns the very value held by the
interface; and only the zero value of a type (the nil of an interface type) converts to
the nil interface. -/
structure GoType (T P V : Type) where
  /-- Zero value of the type. -/
  zero : V
  /-- Conversion to `any`. -/
  toAny : V → GoAny T P
  /-- Type assertion `x.(V)`. -/
  narrow : GoAny T P → Option V
  narrow_nil : narrow GoAny.nil = none
  narrow_toAny : ∀ v : V, toAny v ≠ GoAny.nil → narrow (toAny v) = some v
  toAny_narrow : ∀ (a : GoAny T P) (v : V), narrow a = some v → toAny v = a
  zero_of_nil : ∀ v : V, toAny v = GoAny.nil → v = zero

/-- Interface type with method set `impl`: its values are the nil interface and the
interface values whose dynamic type implements it. -/
def GoType.iface {T P : Type} (impl : T → Bool) :
    GoType T P {a : GoAny T P // GoAny.implements impl a = true} where
  zero := ⟨GoAny.nil, rfl⟩
  toAny := fun v => v.1
  narrow := fun a =>
    match a with
    | GoAny.nil => none
    | GoAny.dyn t p => if h : impl t = true then some ⟨GoAny.dyn t p, h⟩ else none
  narrow_nil := rfl
  narrow_toAny := by
    rintro ⟨a, ha⟩ hne
    cases a with
    | nil => exact absurd rfl hne
    | dyn t p =>
      have h : impl t = true := ha
      simp [h]
  toAny_narrow := by
    intro a v h
    cases a with
    | nil => simp at h
    | dyn t p =>
      by_cases hi : impl t = true
      · simp [hi] at h
        rw [← h]
      · simp [hi] at h
  zero_of_nil := by
    rintro ⟨a, ha⟩ h
    simp at h
    subst h
    rfl

/-- Whether every value of the static type supports `==` without a panic: each value
converts to nil or to a comparable dynamic type. -/
def GoType.Comparable {T P V : Type} [DynType T] (G : GoType T P V) : Prop :=
  ∀ (v : V) (t : T) (p : P), G.toAny v = GoAny.dyn t p → DynType.comparable t = true

/-! ## The erased store -/

/-- Modelled from the spec: the external concurrent store (Go's `sync.Map`) is not part
of the repository.  Its state is the list of its entries, erased key first; iteration
order is the list order. -/
abbrev SyncMap (T P : Type) := List (GoAny T P × GoAny T P)

namespace SyncMap

variable {T P : Type} [DecidableEq T] [DecidableEq P]

/-- Modelled from the spec: the value the store holds for `key`, if any (the common
look-up step of the store operations). -/
def valueOf : SyncMap T P → GoAny T P → Option (GoAny T P)
  | [], _ => none
  | (k, v) :: rest, key => if k = key then some v else valueOf rest key

/-- Modelled from the spec: `sync.Map.Load`, returning `(nil, false)` when the key is
absent. -/
def Load (m : SyncMap T P) (key : GoAny T P) : GoAny T P × Bool :=
  match valueOf m key with
  | some v => (v, true)
  | none => (GoAny.nil, false)

/-- Modelled from the spec: `sync.Map.Store`, which inserts or overwrites the entry. -/
def Store : SyncMap T P → GoAny T P → GoAny T P → SyncMap T P
  | [], key, value => [(key, value)]
  | (k, v) :: rest, key, value =>
    if k = key then (k, value) :: rest else (k, v) :: Store rest key value

/-- Modelled from the spec: `sync.Map.Delete`, which removes the entry if present. -/
def Delete : SyncMap T P → GoAny T P → SyncMap T P
  | [], _ => []
  | (k, v) :: rest, key => if k = key then Delete rest key else (k, v) :: Delete rest key

/-- Modelled from the spec: `sync.Map.Clear`, which removes all entries. -/
def Clear (_m : SyncMap T P) : SyncMap T P := []

/-- Modelled from the spec: `sync.Map.LoadAndDelete`, which removes the entry if
present and returns what `Load` would have returned. -/
def LoadAndDelete (m : SyncMap T P) (key : GoAny T P) : SyncMap T P × (GoAny T P × Bool) :=
  (Delete m key, Load m key)

/-- Modelled from the spec: `sync.Map.LoadOrStore`, which inserts `value` only if the
key is absent and returns the value now stored with the loaded flag. -/
def LoadOrStore (m : SyncMap T P) (key value : GoAny T P) :
    SyncMap T P × (GoAny T P × Bool) :=
  match valueOf m key with
  | some v => (m, (v, true))
  | none => (Store m key value, (value, false))

/-- Modelled from the spec: `sync.Map.CompareAndDelete`, which removes the entry iff
its current value equals `old` under Go's interface `==`. -/
def CompareAndDelete [DynType T] (m : SyncMap T P) (key old : GoAny T P) :
    SyncMap T P × Except Fault Bool :=
  match valueOf m key with
  | none => (m, Except.ok false)
  | some cur =>
    match GoAny.eq cur old with
    | Except.error e => (m, Except.error e)
    | Except.ok true => (Delete m key, Except.ok true)
    | Except.ok false => (m, Except.ok false)

/-- Modelled from the spec: `sync.Map.CompareAndSwap`, which replaces the value iff the
current value equals `old` under Go's interface `==`. -/
def CompareAndSwap [DynType T] (m : SyncMap T P) (key old new : GoAny T P) :
    SyncMap T P × Except Fault Bool :=
  match valueOf m key with
  | none => (m, Except.ok false)
  | some cur =>
    match GoAny.eq cur old with
    | Except.error e => (m, Except.error e)
    | Except.ok true => (Store m key new, Except.ok true)
    | Except.ok false => (m, Except.ok false)

/-- Modelled from the spec: `sync.Map.Range`, which calls the visitor once per entry
and stops at the first call that returns false.  The visitor is a closure over its own
state `σ`; a panic inside it ends the traversal with the state reached so far. -/
def Range {σ : Type} :
    SyncMap T P → (GoAny T P → GoAny T P → σ → Except Fault (σ × Bool)) → σ →
      σ × Except Fault Unit
  | [], _, s => (s, Except.ok ())
  | (k, v) :: rest, f, s =>
    match f k v s with
    | Except.error e => (s, Except.error e)
    | Except.ok (s', true) => Range rest f s'
    | Except.ok (s', false) => (s', Except.ok ())

end SyncMap

/-! ## The wrapper (`src/map.go`) -/

/-- The generic wrapper `Map[K comparable, V any]`: one erased store `v`. -/
structure Map {T P K V : Type} (GK : GoType T P K) (GV : GoType T P V) where
  /-- The wrapped store. -/
  v : SyncMap T P

namespace Map

variable {T P K V : Type} [DecidableEq T] [DecidableEq P]
variable {GK : GoType T P K} {GV : GoType T P V}

/-- The zero-value `Map`, ready to use and empty. -/
def zero : Map GK GV := ⟨[]⟩

/-- `Clear` deletes all the entries. -/
def Clear (m : Map GK GV) : Map GK GV := ⟨SyncMap.Clear m.v⟩

/-- `Contains` reports whether the key exists in the map. -/
def Contains (m : Map GK GV) (key : K) : Bool :=
  (SyncMap.Load m.v (GK.toAny key)).2

/-- `Delete` deletes the value for a key. -/
def Delete (m : Map GK GV) (key : K) : Map GK GV :=
  ⟨SyncMap.Delete m.v (GK.toAny key)⟩

/-- `Load` returns the stored value narrowed to `V`, or the zero value when the key is
absent; the assertion `v.(V)` panics when the stored value does not narrow. -/
def Load (m : Map GK GV) (key : K) : Except Fault (V × Bool) :=
  match SyncMap.Load m.v (GK.toAny key) with
  | (_, false) => Except.ok (GV.zero, false)
  | (v, true) =>
    match GV.narrow v with
    | some x => Except.ok (x, true)
    | none => Except.error Fault.narrow

/-- `Store` sets the value for a key. -/
def Store (m : Map GK GV) (key : K) (value : V) : Map GK GV :=
  ⟨SyncMap.Store m.v (GK.toAny key) (GV.toAny value)⟩

/-- `LoadAndDelete` deletes the value for a key and returns the previous value, if
any, narrowed to `V`. -/
def LoadAndDelete (m : Map GK GV) (key : K) : Map GK GV × Except Fault (V × Bool) :=
  match SyncMap.LoadAndDelete m.v (GK.toAny key) with
  | (s, (_, false)) => (⟨s⟩, Except.ok (GV.zero, false))
  | (s, (v, true)) =>
    match GV.narrow v with
    | some x => (⟨s⟩, Except.ok (x, true))
    | none => (⟨s⟩, Except.error Fault.narrow)

/-- `LoadOrStore` returns the existing value if present, otherwise stores and returns
the given one; the result of the store is narrowed with `a.(V)` in both cases. -/
def LoadOrStore (m : Map GK GV) (key : K) (value : V) :
    Map GK GV × Except Fault (V × Bool) :=
  match SyncMap.LoadOrStore m.v (GK.toAny key) (GV.toAny value) with
  | (s, (a, loaded)) =>
    match GV.narrow a with
    | some x => (⟨s⟩, Except.ok (x, loaded))
    | none => (⟨s⟩, Except.error Fault.narrow)

/-- `CompareAndDelete` deletes the entry for key if its value is equal to `old`. -/
def CompareAndDelete [DynType T] (m : Map GK GV) (key : K) (old : V) :
    Map GK GV × Except Fault Bool :=
  match SyncMap.CompareAndDelete m.v (GK.toAny key) (GV.toAny old) with
  | (s, r) => (⟨s⟩, r)

/-- `CompareAndSwap` swaps the old and new values for key if the stored value is equal
to `old`. -/
def CompareAndSwap [DynType T] (m : Map GK GV) (key : K) (old new : V) :
    Map GK GV × Except Fault Bool :=
  match SyncMap.CompareAndSwap m.v (GK.toAny key) (GV.toAny old) (GV.toAny new) with
  | (s, r) => (⟨s⟩, r)

/-- `Range` hands the store a closure that narrows the key with `key.(K)`, then the
value with `value.(V)`, and then calls `f`. -/
def Range {σ : Type} (m : Map GK GV) (f : K → V → σ → σ × Bool) (s : σ) :
    σ × Except Fault Unit :=
  SyncMap.Range m.v
    (fun key value st =>
      match GK.narrow key with
      | none => Except.error Fault.narrow
      | some k =>
        match GV.narrow value with
        | none => Except.error Fault.narrow
        | some x => Except.ok (f k x st))
    s

/-- The map holds an entry for `key` whose value is `value`. -/
def HasEntry (m : Map GK GV) (key : K) (value : V) : Prop :=
  SyncMap.valueOf m.v (GK.toAny key) = some (GV.toAny value)

end Map

/-! ## Operation sequences and visitor instruments -/

/-- The state-changing calls of the wrapper, as data. -/
inductive Op (K V : Type) where
  | Store (key : K) (value : V)
  | LoadOrStore (key : K) (value : V)
  | CompareAndSwap (key : K) (old new : V)
  | Delete (key : K)
  | LoadAndDelete (key : K)
  | CompareAndDelete (key : K) (old : V)
  | Clear

namespace Map

variable {T P K V : Type} [DecidableEq T] [DecidableEq P] [DynType T]
variable {GK : GoType T P K} {GV : GoType T P V}

/-- The map after one call (whatever the call returned, also after a panic). -/
def step (m : Map GK GV) : Op K V → Map GK GV
  | Op.Store k v => Store m k v
  | Op.LoadOrStore k v => (LoadOrStore m k v).1
  | Op.CompareAndSwap k old new => (CompareAndSwap m k old new).1
  | Op.Delete k => Delete m k
  | Op.LoadAndDelete k => (LoadAndDelete m k).1
  | Op.CompareAndDelete k old => (CompareAndDelete m k old).1
  | Op.Clear => Clear m

/-- The map after a sequence of calls, first call first. -/
def run (m : Map GK GV) (ops : List (Op K V)) : Map GK GV :=
  List.foldl step m ops

/-- Every stored value narrows back to `V`. -/
def Narrowable (m : Map GK GV) : Prop :=
  ∀ e ∈ m.v, (GV.narrow e.2).isSome = true

end Map

/-- A visitor that also counts how often it is called. -/
def counted {K V σ : Type} (f : K → V → σ → σ × Bool) : K → V → σ × Nat → (σ × Nat) × Bool :=
  fun k v st => (((f k v st.1).1, st.2 + 1), (f k v st.1).2)

/-- A visitor that also records what each of its calls returned, oldest first. -/
def logged {K V σ : Type} (f : K → V → σ → σ × Bool) :
    K → V → σ × List Bool → (σ × List Bool) × Bool :=
  fun k v st => (((f k v st.1).1, st.2 ++ [(f k v st.1).2]), (f k v st.1).2)

/-! ## A concrete universe for worked scenarios -/

/-- Dynamic types of the worked scenarios: `int`, `string`, the pointer type
`*errors.errorString`, and the slice type `[]int`. -/
inductive Tag where
  | int
  | string
  | ptrErrorString
  | sliceInt
deriving DecidableEq, Repr

/-- Values of the dynamic types in `Tag`. -/
inductive Payload where
  | int (n : Int)
  | str (s : String)
  | ptr (addr : Nat)
  | ints (l : List Int)
deriving DecidableEq, Repr

instance : DynType Tag where
  comparable := fun t =>
    match t with
    | Tag.sliceInt => false
    | _ => true

/-- The static type `int`. -/
def intType : GoType Tag Payload Int where
  zero := 0
  toAny := fun n => GoAny.dyn Tag.int (Payload.int n)
  narrow := fun a =>
    match a with
    | GoAny.dyn Tag.int (Payload.int n) => some n
    | _ => none
  narrow_nil := rfl
  narrow_toAny := by intro v _; rfl
  toAny_narrow := by
    intro a v h
    rcases a with _ | ⟨t, p⟩
    · simp at h
    · cases t <;> cases p <;> simp at h
      simp [h]
  zero_of_nil := by intro v h; simp at h

/-- The static type `string`. -/
def stringType : GoType Tag Payload String where
  zero := ""
  toAny := fun s => GoAny.dyn Tag.string (Payload.str s)
  narrow := fun a =>
    match a with
    | GoAny.dyn Tag.string (Payload.str s) => some s
    | _ => none
  narrow_nil := rfl
  narrow_toAny := by intro v _; rfl
  toAny_narrow := by
    intro a v h
    rcases a with _ | ⟨t, p⟩
    · simp at h
    · cases t <;> cases p <;> simp at h
      simp [h]
  zero_of_nil := by intro v h; simp at h

/-- The interface type `error`, implemented here by `*errors.errorString` only. -/
abbrev errorType :
    GoType Tag Payload {a : GoAny Tag Payload //
      GoAny.implements (fun t => decide (t = Tag.ptrErrorString)) a = true} :=
  GoType.iface (fun t => decide (t = Tag.ptrErrorString))

/-- The nil `error`. -/
abbrev nilError : {a : GoAny Tag Payload //
    GoAny.implements (fun t => decide (t = Tag.ptrErrorString)) a = true} :=
  ⟨GoAny.nil, rfl⟩

/-- A non-nil `error`: the `*errors.errorString` at address `addr`. -/
abbrev someError (addr : Nat) : {a : GoAny Tag Payload //
    GoAny.implements (fun t => decide (t = Tag.ptrErrorString)) a = true} :=
  ⟨GoAny.dyn Tag.ptrErrorString (Payload.ptr addr), rfl⟩

/-- A visitor that stops at once, with no state of its own. -/
def stopAtOnce {K V : Type} : K → V → Unit → Unit × Bool :=
  fun _ _ _ => ((), false)

/-- The static type `[]int`, whose values do not support `==`. -/
def sliceIntType : GoType Tag Payload (List Int) where
  zero := []
  toAny := fun l => GoAny.dyn Tag.sliceInt (Payload.ints l)
  narrow := fun a =>
    match a with
    | GoAny.dyn Tag.sliceInt (Payload.ints l) => some l
    | _ => none
  narrow_nil := rfl
  narrow_toAny := by intro v _; rfl
  toAny_narrow := by
    intro a v h
    rcases a with _ | ⟨t, p⟩
    · simp at h
    · cases t <;> cases p <;> simp at h
      simp [h]
  zero_of_nil := by intro v h; simp at h

/-- A visitor that records the pairs it is handed, oldest first, and never stops. -/
def collect {K V : Type} : K → V → List (K × V) → List (K × V) × Bool :=
  fun k v acc => (acc ++ [(k, v)], true)

/-! ## Read-only calls as state transitions -/

namespace SyncMap

variable {T P : Type} [DecidableEq T] [DecidableEq P]

/-- The erased keys of the store, in iteration order. -/
def keys (m : SyncMap T P) : List (GoAny T P) :=
  List.map Prod.fst m

/-- Modelled from the spec: `sync.Map.Load` as a state transition; per the contract of
the store (operation table, "side effect: none") it leaves the entries as they are. -/
def LoadStep (m : SyncMap T P) (key : GoAny T P) : SyncMap T P × (GoAny T P × Bool) :=
  (m, Load m key)

end SyncMap

namespace Map

variable {T P K V : Type} [DecidableEq T] [DecidableEq P]
variable {GK : GoType T P K} {GV : GoType T P V}

/-- `Contains` with the map it leaves behind: its only store call is `Load`. -/
def ContainsStep (m : Map GK GV) (key : K) : Map GK GV × Bool :=
  match SyncMap.LoadStep m.v (GK.toAny key) with
  | (s, (_, ok)) => (⟨s⟩, ok)

/-- `Load` with the map it leaves behind, also when the type assertion panics: its only
store call is `Load`. -/
def LoadStep (m : Map GK GV) (key : K) : Map GK GV × Except Fault (V × Bool) :=
  match SyncMap.LoadStep m.v (GK.toAny key) with
  | (s, (_, false)) => (⟨s⟩, Except.ok (GV.zero, false))
  | (s, (v, true)) =>
    match GV.narrow v with
    | some x => (⟨s⟩, Except.ok (x, true))
    | none => (⟨s⟩, Except.error Fault.narrow)

/-- Every stored key narrows back to `K`. -/
def KeyNarrowable (m : Map GK GV) : Prop :=
  ∀ e ∈ m.v, (GK.narrow e.1).isSome = true

/-- The store holds at most one entry per key, and every key and value in it narrows. -/
def WellTyped (m : Map GK GV) : Prop :=
  (SyncMap.keys m.v).Nodup ∧ KeyNarrowable m ∧ Narrowable m

/-- The entries of the map as typed pairs, in iteration order (an entry whose key or
value does not narrow has no typed form and is left out). -/
def entries (m : Map GK GV) : List (K × V) :=
  List.filterMap
    (fun e =>
      match GK.narrow e.1, GV.narrow e.2 with
      | some k, some x => some (k, x)
      | _, _ => none)
    m.v

end Map

/-! ## Facts about the erased store -/

namespace SyncMap

variable {T P : Type} [DecidableEq T] [DecidableEq P]

theorem valueOf_Store_same (m : SyncMap T P) (key value : GoAny T P) :
    valueOf (Store m key value) key = some value := by
  induction m with
  | nil => simp [Store, valueOf]
  | cons e rest ih =>
    obtain ⟨k, v⟩ := e
    by_cases h : k = key
    · simp [Store, valueOf, h]
    · simp [Store, valueOf, h, ih]

theorem valueOf_Store_other (m : SyncMap T P) (key key' value : GoAny T P)
    (hne : key' ≠ key) : valueOf (Store m key value) key' = valueOf m key' := by
  have hne' : ¬ key = key' := fun h => hne h.symm
  induction m with
  | nil => simp [Store, valueOf, hne']
  | cons e rest ih =>
    obtain ⟨k, v⟩ := e
    by_cases h : k = key
    · subst h
      simp [Store, valueOf, hne']
    · by_cases h2 : k = key'
      · subst h2
        simp [Store, valueOf, h]
      · simp [Store, valueOf, h, h2, ih]

theorem valueOf_Delete_same (m : SyncMap T P) (key : GoAny T P) :
    valueOf (Delete m key) key = none := by
  induction m with
  | nil => simp [Delete, valueOf]
  | cons e rest ih =>
    obtain ⟨k, v⟩ := e
    by_cases h : k = key
    · simp [Delete, h, ih]
    · simp [Delete, h, valueOf, ih]

theorem valueOf_Delete_other (m : SyncMap T P) (key key' : GoAny T P) (hne : key' ≠ key) :
    valueOf (Delete m key) key' = valueOf m key' := by
  have hne' : ¬ key = key' := fun h => hne h.symm
  induction m with
  | nil => simp [Delete, valueOf]
  | cons e rest ih =>
    obtain ⟨k, v⟩ := e
    by_cases h : k = key
    · subst h
      simp [Delete, valueOf, hne', ih]
    · by_cases h2 : k = key'
      · subst h2
        simp [Delete, valueOf, h]
      · simp [Delete, valueOf, h, h2, ih]

theorem Delete_of_absent (m : SyncMap T P) (key : GoAny T P) (h : valueOf m key = none) :
    Delete m key = m := by
  induction m with
  | nil => simp [Delete]
  | cons e rest ih =>
    obtain ⟨k, v⟩ := e
    by_cases hk : k = key
    · simp [valueOf, hk] at h
    · simp [valueOf, hk] at h
      simp [Delete, hk, ih h]

end SyncMap

/-- Go's `==` against a value of a comparable dynamic type (or nil) never panics and
decides plain equality. -/
theorem GoAny.eq_of_comparable {T P : Type} [DecidableEq T] [DecidableEq P] [DynType T]
    (cur old : GoAny T P)
    (h : ∀ (t : T) (p : P), old = GoAny.dyn t p → DynType.comparable t = true) :
    GoAny.eq cur old = Except.ok (decide (cur = old)) := by
  cases cur with
  | nil => cases old <;> simp [GoAny.eq]
  | dyn t p =>
    cases old with
    | nil => simp [GoAny.eq]
    | dyn t' p' =>
      have hc : DynType.comparable t' = true := h t' p' rfl
      by_cases ht : t = t'
      · subst ht
        simp [GoAny.eq, hc]
      · simp [GoAny.eq, ht]

/-! ## Facts about the wrapper -/

namespace Map

variable {T P K V : Type} [DecidableEq T] [DecidableEq P]
variable {GK : GoType T P K} {GV : GoType T P V}

theorem Load_of_absent (m : Map GK GV) (k : K)
    (h : SyncMap.valueOf m.v (GK.toAny k) = none) :
    Load m k = Except.ok (GV.zero, false) := by
  simp [Load, SyncMap.Load, h]

theorem Load_of_present (m : Map GK GV) (k : K) (a : GoAny T P)
    (h : SyncMap.valueOf m.v (GK.toAny k) = some a) :
    Load m k =
      match GV.narrow a with
      | some x => Except.ok (x, true)
      | none => Except.error Fault.narrow := by
  simp [Load, SyncMap.Load, h]

theorem Contains_eq (m : Map GK GV) (k : K) :
    Contains m k = (SyncMap.valueOf m.v (GK.toAny k)).isSome := by
  unfold Contains SyncMap.Load
  cases SyncMap.valueOf m.v (GK.toAny k) <;> rfl

/-- Away from the nil interface, `Load` after `Store` returns the stored value. -/
theorem Load_Store_of_ne_nil (m : Map GK GV) (k : K) (v : V)
    (hv : GV.toAny v ≠ GoAny.nil) : Load (Store m k v) k = Except.ok (v, true) := by
  rw [Load_of_present (Store m k v) k (GV.toAny v) (SyncMap.valueOf_Store_same _ _ _)]
  simp [GV.narrow_toAny v hv]

/-- A value that converts to the nil interface makes `Load` after `Store` panic. -/
theorem Load_Store_of_nil (m : Map GK GV) (k : K) (v : V)
    (hv : GV.toAny v = GoAny.nil) : Load (Store m k v) k = Except.error Fault.narrow := by
  rw [Load_of_present (Store m k v) k (GV.toAny v) (SyncMap.valueOf_Store_same _ _ _)]
  simp [hv, GV.narrow_nil]

end Map

namespace Map

variable {T P K V : Type} [DecidableEq T] [DecidableEq P]
variable {GK : GoType T P K} {GV : GoType T P V}

theorem mk_v (m : Map GK GV) : (Map.mk m.v : Map GK GV) = m := by
  cases m
  rfl

theorem Load_Delete_same (m : Map GK GV) (k : K) :
    Load (Delete m k) k = Except.ok (GV.zero, false) :=
  Load_of_absent _ _ (SyncMap.valueOf_Delete_same _ _)

theorem HasEntry_iff_of_ne_nil (m : Map GK GV) (k : K) (v : V) (hv : GV.toAny v ≠ GoAny.nil) :
    HasEntry m k v ↔ Load m k = Except.ok (v, true) := by
  unfold HasEntry
  cases h : SyncMap.valueOf m.v (GK.toAny k) with
  | none => simp [Load_of_absent m k h]
  | some a =>
    rw [Load_of_present m k a h]
    constructor
    · intro ha
      have ha' : a = GV.toAny v := by simpa using ha
      subst ha'
      simp [GV.narrow_toAny v hv]
    · intro hl
      cases hn : GV.narrow a with
      | none => simp [hn] at hl
      | some x =>
        simp [hn] at hl
        subst hl
        rw [GV.toAny_narrow a x hn]

/-- On an absent key and away from the nil interface, `LoadOrStore` stores and returns
the given value, and a second `LoadOrStore` loads it and changes nothing. -/
theorem LoadOrStore_absent_of_ne_nil (m : Map GK GV) (k : K) (v1 v2 : V)
    (habs : Contains m k = false) (hv : GV.toAny v1 ≠ GoAny.nil) :
    LoadOrStore m k v1 = (Store m k v1, Except.ok (v1, false)) ∧
    LoadOrStore (Store m k v1) k v2 = (Store m k v1, Except.ok (v1, true)) ∧
    Load (Store m k v1) k = Except.ok (v1, true) := by
  have h0 : SyncMap.valueOf m.v (GK.toAny k) = none := by
    rw [Contains_eq] at habs
    simpa using habs
  refine ⟨?_, ?_, Load_Store_of_ne_nil m k v1 hv⟩
  · simp [LoadOrStore, SyncMap.LoadOrStore, h0, GV.narrow_toAny v1 hv, Store]
  · have h1 : SyncMap.valueOf (Store m k v1).v (GK.toAny k) = some (GV.toAny v1) :=
      SyncMap.valueOf_Store_same _ _ _
    simp [LoadOrStore, SyncMap.LoadOrStore, h1, GV.narrow_toAny v1 hv]

end Map

namespace Map

variable {T P K V : Type} [DecidableEq T] [DecidableEq P] [DynType T]
variable {GK : GoType T P K} {GV : GoType T P V}

/-- For a value type whose values all support `==`, `CompareAndSwap` answers without a
panic, succeeds exactly when the key holds `old`, writes `new` then, and otherwise
leaves the map as it was. -/
theorem CompareAndSwap_spec (m : Map GK GV) (k : K) (old new : V) (hV : GV.Comparable) :
    ((CompareAndSwap m k old new).2 = Except.ok true ∨
        (CompareAndSwap m k old new).2 = Except.ok false) ∧
      ((CompareAndSwap m k old new).2 = Except.ok true ↔ HasEntry m k old) ∧
      ((CompareAndSwap m k old new).2 = Except.ok true →
        (CompareAndSwap m k old new).1 = Store m k new) ∧
      ((CompareAndSwap m k old new).2 = Except.ok false →
        (CompareAndSwap m k old new).1 = m) := by
  unfold CompareAndSwap SyncMap.CompareAndSwap HasEntry
  cases h : SyncMap.valueOf m.v (GK.toAny k) with
  | none => simp [mk_v]
  | some cur =>
    by_cases hc : cur = GV.toAny old
    · subst hc
      have he : GoAny.eq (GV.toAny old) (GV.toAny old) = Except.ok true := by
        simpa using GoAny.eq_of_comparable (GV.toAny old) (GV.toAny old)
          (fun t p ht => hV old t p ht)
      simp [he, Store]
    · have he : GoAny.eq cur (GV.toAny old) = Except.ok false := by
        simpa [hc] using GoAny.eq_of_comparable cur (GV.toAny old)
          (fun t p ht => hV old t p ht)
      simp [he, hc, mk_v]

/-- For a value type whose values all support `==`, `CompareAndDelete` answers without
a panic, succeeds exactly when the key holds `old`, removes the entry then, and
otherwise leaves the map as it was. -/
theorem CompareAndDelete_spec (m : Map GK GV) (k : K) (old : V) (hV : GV.Comparable) :
    ((CompareAndDelete m k old).2 = Except.ok true ∨
        (CompareAndDelete m k old).2 = Except.ok false) ∧
      ((CompareAndDelete m k old).2 = Except.ok true ↔ HasEntry m k old) ∧
      ((CompareAndDelete m k old).2 = Except.ok true →
        (CompareAndDelete m k old).1 = Delete m k) ∧
      ((CompareAndDelete m k old).2 = Except.ok false →
        (CompareAndDelete m k old).1 = m) := by
  unfold CompareAndDelete SyncMap.CompareAndDelete HasEntry
  cases h : SyncMap.valueOf m.v (GK.toAny k) with
  | none => simp [mk_v]
  | some cur =>
    by_cases hc : cur = GV.toAny old
    · subst hc
      have he : GoAny.eq (GV.toAny old) (GV.toAny old) = Except.ok true := by
        simpa using GoAny.eq_of_comparable (GV.toAny old) (GV.toAny old)
          (fun t p ht => hV old t p ht)
      simp [he, Delete]
    · have he : GoAny.eq cur (GV.toAny old) = Except.ok false := by
        simpa [hc] using GoAny.eq_of_comparable cur (GV.toAny old)
          (fun t p ht => hV old t p ht)
      simp [he, hc, mk_v]

end Map

theorem intType_Comparable : intType.Comparable := by
  intro v t p h
  simp [intType] at h
  rw [← h.1]
  rfl

theorem errorType_Comparable : errorType.Comparable := by
  rintro ⟨a, ha⟩ t p h
  have h' : a = GoAny.dyn t p := h
  subst h'
  have ht : t = Tag.ptrErrorString := by simpa [GoAny.implements] using ha
  subst ht
  rfl

/-! ## Facts about `LoadAndDelete`, `Range` and reachable states -/

namespace SyncMap

variable {T P : Type} [DecidableEq T] [DecidableEq P]

theorem mem_of_valueOf (m : SyncMap T P) (key a : GoAny T P) (h : valueOf m key = some a) :
    (key, a) ∈ m := by
  induction m with
  | nil => simp [valueOf] at h
  | cons e rest ih =>
    obtain ⟨k, v⟩ := e
    by_cases hk : k = key
    · simp [valueOf, hk] at h
      simp [hk, h]
    · simp [valueOf, hk] at h
      exact List.mem_cons_of_mem _ (ih h)

theorem snd_of_mem_Store (m : SyncMap T P) (key value : GoAny T P) (e : GoAny T P × GoAny T P)
    (h : e ∈ Store m key value) : e ∈ m ∨ e.2 = value := by
  induction m with
  | nil =>
    simp [Store] at h
    simp [h]
  | cons e' rest ih =>
    obtain ⟨k, v⟩ := e'
    by_cases hk : k = key
    · simp [Store, hk] at h
      rcases h with h | h
      · right
        simp [h]
      · left
        exact List.mem_cons_of_mem _ h
    · simp [Store, hk] at h
      rcases h with h | h
      · left
        simp [h]
      · rcases ih h with h' | h'
        · left
          exact List.mem_cons_of_mem _ h'
        · right
          exact h'

theorem mem_of_mem_Delete (m : SyncMap T P) (key : GoAny T P) (e : GoAny T P × GoAny T P)
    (h : e ∈ Delete m key) : e ∈ m := by
  induction m with
  | nil => simp [Delete] at h
  | cons e' rest ih =>
    obtain ⟨k, v⟩ := e'
    by_cases hk : k = key
    · simp [Delete, hk] at h
      exact List.mem_cons_of_mem _ (ih h)
    · simp [Delete, hk] at h
      rcases h with h | h
      · simp [h]
      · exact List.mem_cons_of_mem _ (ih h)

end SyncMap

namespace Map

variable {T P K V : Type} [DecidableEq T] [DecidableEq P]
variable {GK : GoType T P K} {GV : GoType T P V}

/-- In every state `LoadAndDelete` leaves the map that `Delete` leaves and returns what
`Load` returns. -/
theorem LoadAndDelete_eq (m : Map GK GV) (k : K) :
    LoadAndDelete m k = (Delete m k, Load m k) := by
  unfold LoadAndDelete SyncMap.LoadAndDelete Load Delete
  cases h : SyncMap.Load m.v (GK.toAny k) with
  | mk a ok =>
    cases ok with
    | false => rfl
    | true => cases hn : GV.narrow a <;> simp [hn]

/-- No call of the visitor follows a call that returned false: in the record of
returned values, every value but the last is true. -/
theorem Range_logged_stops {σ : Type} (m : Map GK GV) (f : K → V → σ → σ × Bool) (s : σ)
    (log : List Bool) (hlog : ∀ b ∈ log, b = true) :
    ∀ b ∈ (Range m (logged f) (s, log)).1.2.dropLast, b = true := by
  obtain ⟨l⟩ := m
  induction l generalizing s log with
  | nil =>
    intro b hb
    exact hlog b (List.mem_of_mem_dropLast hb)
  | cons e rest ih =>
    obtain ⟨k, v⟩ := e
    intro b hb
    unfold Range at hb
    simp only [SyncMap.Range] at hb
    cases hk : GK.narrow k with
    | none =>
      simp only [hk] at hb
      exact hlog b (List.mem_of_mem_dropLast hb)
    | some k' =>
      cases hv : GV.narrow v with
      | none =>
        simp only [hk, hv] at hb
        exact hlog b (List.mem_of_mem_dropLast hb)
      | some x =>
        simp only [hk, hv] at hb
        cases hr : (f k' x s).2 with
        | false =>
          simp only [logged, hr] at hb
          simp at hb
          exact hlog b hb
        | true =>
          simp only [logged, hr] at hb
          refine ih (f k' x s).1 (log ++ [true]) ?_ b hb
          intro c hc
          rcases List.mem_append.mp hc with h | h
          · exact hlog c h
          · simpa using h

/-- When the first entry narrows and the visitor returns false on it, `Range` calls the
visitor exactly once. -/
theorem Range_counted_first_false {σ : Type} (rest : SyncMap T P) (key value : GoAny T P)
    (k : K) (x : V) (f : K → V → σ → σ × Bool) (s : σ) (n : Nat)
    (hk : GK.narrow key = some k) (hv : GV.narrow value = some x)
    (hf : (f k x s).2 = false) :
    Range (Map.mk ((key, value) :: rest) : Map GK GV) (counted f) (s, n) =
      (((f k x s).1, n + 1), Except.ok ()) := by
  simp [Range, SyncMap.Range, hk, hv, counted, hf]

end Map

namespace Map

variable {T P K V : Type} [DecidableEq T] [DecidableEq P] [DynType T]
variable {GK : GoType T P K} {GV : GoType T P V}

theorem Narrowable_Store (m : Map GK GV) (k : K) (v : V) (hv : GV.toAny v ≠ GoAny.nil)
    (hm : Narrowable m) : Narrowable (Store m k v) := by
  intro e he
  rcases SyncMap.snd_of_mem_Store m.v _ _ e he with h | h
  · exact hm e h
  · rw [h, GV.narrow_toAny v hv]
    rfl

theorem Narrowable_Delete (m : Map GK GV) (k : K) (hm : Narrowable m) :
    Narrowable (Delete m k) := by
  intro e he
  exact hm e (SyncMap.mem_of_mem_Delete m.v _ e he)

theorem LoadOrStore_fst (m : Map GK GV) (k : K) (v : V) :
    (LoadOrStore m k v).1 = m ∨ (LoadOrStore m k v).1 = Store m k v := by
  cases h : SyncMap.valueOf m.v (GK.toAny k) with
  | none =>
    right
    cases hn : GV.narrow (GV.toAny v) <;>
      simp [LoadOrStore, SyncMap.LoadOrStore, h, hn, Store]
  | some a =>
    left
    cases hn : GV.narrow a <;> simp [LoadOrStore, SyncMap.LoadOrStore, h, hn, mk_v]

theorem CompareAndSwap_fst (m : Map GK GV) (k : K) (old new : V) :
    (CompareAndSwap m k old new).1 = m ∨ (CompareAndSwap m k old new).1 = Store m k new := by
  cases h : SyncMap.valueOf m.v (GK.toAny k) with
  | none =>
    left
    simp [CompareAndSwap, SyncMap.CompareAndSwap, h, mk_v]
  | some cur =>
    cases he : GoAny.eq cur (GV.toAny old) with
    | error e =>
      left
      simp [CompareAndSwap, SyncMap.CompareAndSwap, h, he, mk_v]
    | ok b =>
      cases b with
      | true =>
        right
        simp [CompareAndSwap, SyncMap.CompareAndSwap, h, he, Store]
      | false =>
        left
        simp [CompareAndSwap, SyncMap.CompareAndSwap, h, he, mk_v]

theorem CompareAndDelete_fst (m : Map GK GV) (k : K) (old : V) :
    (CompareAndDelete m k old).1 = m ∨ (CompareAndDelete m k old).1 = Delete m k := by
  cases h : SyncMap.valueOf m.v (GK.toAny k) with
  | none =>
    left
    simp [CompareAndDelete, SyncMap.CompareAndDelete, h, mk_v]
  | some cur =>
    cases he : GoAny.eq cur (GV.toAny old) with
    | error e =>
      left
      simp [CompareAndDelete, SyncMap.CompareAndDelete, h, he, mk_v]
    | ok b =>
      cases b with
      | true =>
        right
        simp [CompareAndDelete, SyncMap.CompareAndDelete, h, he, Delete]
      | false =>
        left
        simp [CompareAndDelete, SyncMap.CompareAndDelete, h, he, mk_v]

/-- For a value type none of whose values converts to the nil interface (a type that is
not an interface type), every call keeps all stored values narrowable. -/
theorem Narrowable_step (hV : ∀ v : V, GV.toAny v ≠ GoAny.nil) (m : Map GK GV)
    (op : Op K V) (hm : Narrowable m) : Narrowable (step m op) := by
  cases op with
  | Store k v => exact Narrowable_Store m k v (hV v) hm
  | LoadOrStore k v =>
    show Narrowable (LoadOrStore m k v).1
    rcases LoadOrStore_fst m k v with h | h
    · rw [h]
      exact hm
    · rw [h]
      exact Narrowable_Store m k v (hV v) hm
  | CompareAndSwap k old new =>
    show Narrowable (CompareAndSwap m k old new).1
    rcases CompareAndSwap_fst m k old new with h | h
    · rw [h]
      exact hm
    · rw [h]
      exact Narrowable_Store m k new (hV new) hm
  | Delete k => exact Narrowable_Delete m k hm
  | LoadAndDelete k =>
    show Narrowable (LoadAndDelete m k).1
    rw [LoadAndDelete_eq]
    exact Narrowable_Delete m k hm
  | CompareAndDelete k old =>
    show Narrowable (CompareAndDelete m k old).1
    rcases CompareAndDelete_fst m k old with h | h
    · rw [h]
      exact hm
    · rw [h]
      exact Narrowable_Delete m k hm
  | Clear =>
    intro e he
    simp [step, Clear, SyncMap.Clear] at he

/-- For a value type that is not an interface type, every state reached from the empty
map has only narrowable values, and `Load` does not panic on it. -/
theorem Narrowable_run (hV : ∀ v : V, GV.toAny v ≠ GoAny.nil) (ops : List (Op K V)) :
    Narrowable (run (zero : Map GK GV) ops) ∧
      ∀ k : K, Load (run (zero : Map GK GV) ops) k ≠ Except.error Fault.narrow := by
  have key : ∀ (ops : List (Op K V)) (m : Map GK GV), Narrowable m → Narrowable (run m ops) := by
    intro ops
    induction ops with
    | nil => intro m hm; exact hm
    | cons op rest ih =>
      intro m hm
      exact ih (step m op) (Narrowable_step hV m op hm)
  have h0 : Narrowable (zero : Map GK GV) := by
    intro e he
    simp [zero] at he
  have hn := key ops zero h0
  refine ⟨hn, ?_⟩
  intro k
  cases h : SyncMap.valueOf (run (zero : Map GK GV) ops).v (GK.toAny k) with
  | none =>
    rw [Load_of_absent _ _ h]
    simp
  | some a =>
    rw [Load_of_present _ _ a h]
    have ha := hn _ (SyncMap.mem_of_valueOf _ _ _ h)
    cases hx : GV.narrow a with
    | none => simp [hx] at ha
    | some x => simp

end Map

namespace Map

variable {T P K V : Type} [DecidableEq T] [DecidableEq P] [DynType T]
variable {GK : GoType T P K} {GV : GoType T P V}

/-- After a successful `CompareAndSwap` with a new value that does not convert to the
nil interface, `Load` returns the new value. -/
theorem Load_CompareAndSwap_of_ne_nil (m : Map GK GV) (k : K) (old new : V)
    (hV : GV.Comparable) (hn : GV.toAny new ≠ GoAny.nil)
    (ht : (CompareAndSwap m k old new).2 = Except.ok true) :
    Load (CompareAndSwap m k old new).1 k = Except.ok (new, true) := by
  rw [(CompareAndSwap_spec m k old new hV).2.2.1 ht]
  exact Load_Store_of_ne_nil m k new hn

/-- With a present value that narrows, `LoadAndDelete` returns it and the key is gone;
on an absent key it returns the zero value and changes nothing. -/
theorem LoadAndDelete_spec (m : Map GK GV) (k : K) :
    (∀ v : V, Load m k = Except.ok (v, true) →
      (LoadAndDelete m k).2 = Except.ok (v, true) ∧
        Load (LoadAndDelete m k).1 k = Except.ok (GV.zero, false)) ∧
    (Contains m k = false →
      LoadAndDelete m k = (m, Except.ok (GV.zero, false))) := by
  rw [LoadAndDelete_eq]
  refine ⟨fun v hv => ⟨hv, Load_Delete_same m k⟩, ?_⟩
  intro hc
  have h0 : SyncMap.valueOf m.v (GK.toAny k) = none := by
    rw [Contains_eq] at hc
    simpa using hc
  rw [Load_of_absent m k h0]
  have hd : Delete m k = m := by
    unfold Delete
    rw [SyncMap.Delete_of_absent m.v _ h0]
  rw [hd]

end Map

/-! ## Frame facts and `Range` up to a bad entry -/

theorem GoType.toAny_injective {T P V : Type} (G : GoType T P V) (v w : V)
    (h : G.toAny v = G.toAny w) : v = w := by
  by_cases hv : G.toAny v = GoAny.nil
  · rw [G.zero_of_nil v hv, G.zero_of_nil w (h ▸ hv)]
  · have h1 := G.narrow_toAny v hv
    have h2 := G.narrow_toAny w (h ▸ hv)
    rw [h, h2] at h1
    exact (Option.some.inj h1).symm

namespace Map

variable {T P K V : Type} [DecidableEq T] [DecidableEq P]
variable {GK : GoType T P K} {GV : GoType T P V}

theorem Load_congr (m m' : Map GK GV) (k : K)
    (h : SyncMap.valueOf m'.v (GK.toAny k) = SyncMap.valueOf m.v (GK.toAny k)) :
    Load m' k = Load m k := by
  unfold Load SyncMap.Load
  rw [h]

theorem Load_Store_other (m : Map GK GV) (k k' : K) (v : V) (hne : k ≠ k') :
    Load (Store m k v) k' = Load m k' := by
  apply Load_congr
  apply SyncMap.valueOf_Store_other
  intro h
  exact hne (GK.toAny_injective _ _ h).symm

theorem Load_Delete_other (m : Map GK GV) (k k' : K) (hne : k ≠ k') :
    Load (Delete m k) k' = Load m k' := by
  apply Load_congr
  apply SyncMap.valueOf_Delete_other
  intro h
  exact hne (GK.toAny_injective _ _ h).symm

/-- With a visitor that never stops and a prefix whose keys and values all narrow,
`Range` runs through the prefix and panics at the first entry whose value does not
narrow, before calling the visitor on it. -/
theorem Range_reaches_bad_value {σ : Type} (pre rest : SyncMap T P) (key a : GoAny T P)
    (f : K → V → σ → σ × Bool) (s : σ)
    (hf : ∀ (k : K) (x : V) (st : σ), (f k x st).2 = true)
    (hpk : KeyNarrowable (Map.mk pre : Map GK GV))
    (hpv : Narrowable (Map.mk pre : Map GK GV))
    (hn : GV.narrow a = none) :
    Range (Map.mk (pre ++ (key, a) :: rest) : Map GK GV) f s =
      ((Range (Map.mk pre : Map GK GV) f s).1, Except.error Fault.narrow) := by
  induction pre generalizing s with
  | nil =>
    cases hk : GK.narrow key <;> simp [Range, SyncMap.Range, hk, hn]
  | cons e pre ih =>
    obtain ⟨k0, v0⟩ := e
    have hk0 := hpk (k0, v0) (List.mem_cons_self _ _)
    have hv0 := hpv (k0, v0) (List.mem_cons_self _ _)
    obtain ⟨k1, hk1⟩ := Option.isSome_iff_exists.mp hk0
    obtain ⟨x1, hx1⟩ := Option.isSome_iff_exists.mp hv0
    have hk1' : GK.narrow k0 = some k1 := hk1
    have hx1' : GV.narrow v0 = some x1 := hx1
    have ih' := ih (f k1 x1 s).1
      (fun e he => hpk e (List.mem_cons_of_mem _ he))
      (fun e he => hpv e (List.mem_cons_of_mem _ he))
    have hcont : f k1 x1 s = ((f k1 x1 s).1, true) := by
      rw [← hf k1 x1 s]
    unfold Range at ih' ⊢
    simp only [List.cons_append, SyncMap.Range, hk1', hx1']
    rw [hcont]
    exact ih'

end Map

/-! ## Well-typed states and what `Range` visits -/

namespace SyncMap

variable {T P : Type} [DecidableEq T] [DecidableEq P]

theorem fst_of_mem_Store (m : SyncMap T P) (key value : GoAny T P) (e : GoAny T P × GoAny T P)
    (h : e ∈ Store m key value) : e ∈ m ∨ e.1 = key := by
  induction m with
  | nil =>
    simp [Store] at h
    simp [h]
  | cons e' rest ih =>
    obtain ⟨k, v⟩ := e'
    by_cases hk : k = key
    · simp [Store, hk] at h
      rcases h with h | h
      · right
        simp [h]
      · left
        exact List.mem_cons_of_mem _ h
    · simp [Store, hk] at h
      rcases h with h | h
      · left
        simp [h]
      · rcases ih h with h' | h'
        · left
          exact List.mem_cons_of_mem _ h'
        · right
          exact h'

theorem Nodup_keys_Store (m : SyncMap T P) (key value : GoAny T P) (h : (keys m).Nodup) :
    (keys (Store m key value)).Nodup := by
  induction m with
  | nil => simp [Store, keys]
  | cons e rest ih =>
    obtain ⟨k, v⟩ := e
    have hn : k ∉ keys rest ∧ (keys rest).Nodup := by
      simpa [keys] using h
    by_cases hk : k = key
    · simpa [Store, hk, keys] using h
    · have hrest := ih hn.2
      have hk' : k ∉ keys (Store rest key value) := by
        intro hmem
        obtain ⟨e, he, hek⟩ := List.mem_map.mp hmem
        rcases fst_of_mem_Store rest key value e he with h1 | h1
        · exact hn.1 (List.mem_map.mpr ⟨e, h1, hek⟩)
        · exact hk (hek.symm.trans h1)
      have : keys (Store ((k, v) :: rest) key value) = k :: keys (Store rest key value) := by
        simp [Store, hk, keys]
      rw [this]
      exact List.nodup_cons.mpr ⟨hk', hrest⟩

theorem Nodup_keys_Delete (m : SyncMap T P) (key : GoAny T P) (h : (keys m).Nodup) :
    (keys (Delete m key)).Nodup := by
  induction m with
  | nil => simp [Delete, keys]
  | cons e rest ih =>
    obtain ⟨k, v⟩ := e
    have hn : k ∉ keys rest ∧ (keys rest).Nodup := by
      simpa [keys] using h
    by_cases hk : k = key
    · simpa [Delete, hk] using ih hn.2
    · have hk' : k ∉ keys (Delete rest key) := by
        intro hmem
        obtain ⟨e, he, hek⟩ := List.mem_map.mp hmem
        exact hn.1 (List.mem_map.mpr ⟨e, mem_of_mem_Delete rest key e he, hek⟩)
      have : keys (Delete ((k, v) :: rest) key) = k :: keys (Delete rest key) := by
        simp [Delete, hk, keys]
      rw [this]
      exact List.nodup_cons.mpr ⟨hk', ih hn.2⟩

theorem valueOf_of_mem (m : SyncMap T P) (key a : GoAny T P) (h : (keys m).Nodup)
    (hm : (key, a) ∈ m) : valueOf m key = some a := by
  induction m with
  | nil => simp at hm
  | cons e rest ih =>
    obtain ⟨k, v⟩ := e
    have hn : k ∉ keys rest ∧ (keys rest).Nodup := by
      simpa [keys] using h
    rcases List.mem_cons.mp hm with h1 | h1
    · have hk : k = key := (congrArg Prod.fst h1).symm
      have hv : v = a := (congrArg Prod.snd h1).symm
      simp [valueOf, hk, hv]
    · have hk : k ≠ key := by
        intro hk
        exact hn.1 (List.mem_map.mpr ⟨(key, a), h1, hk.symm⟩)
      simp [valueOf, hk, ih hn.2 h1]

end SyncMap

namespace Map

variable {T P K V : Type} [DecidableEq T] [DecidableEq P]
variable {GK : GoType T P K} {GV : GoType T P V}

theorem entries_cons (k0 v0 : GoAny T P) (rest : SyncMap T P) (k1 : K) (x1 : V)
    (hk : GK.narrow k0 = some k1) (hv : GV.narrow v0 = some x1) :
    entries (Map.mk ((k0, v0) :: rest) : Map GK GV) =
      (k1, x1) :: entries (Map.mk rest : Map GK GV) := by
  simp [entries, hk, hv]

/-- On a state whose keys and values all narrow, `Range` with a visitor that never stops
calls it on the typed entries, each once, in order, and returns normally. -/
theorem Range_of_narrowable {σ : Type} (m : Map GK GV) (f : K → V → σ → σ × Bool) (s : σ)
    (hf : ∀ (k : K) (x : V) (st : σ), (f k x st).2 = true)
    (hk : KeyNarrowable m) (hv : Narrowable m) :
    Range m f s =
      (List.foldl (fun st kv => (f kv.1 kv.2 st).1) s (entries m), Except.ok ()) := by
  obtain ⟨l⟩ := m
  induction l generalizing s with
  | nil => rfl
  | cons e rest ih =>
    obtain ⟨k0, v0⟩ := e
    obtain ⟨k1, hk1⟩ := Option.isSome_iff_exists.mp (hk (k0, v0) (List.mem_cons_self _ _))
    obtain ⟨x1, hx1⟩ := Option.isSome_iff_exists.mp (hv (k0, v0) (List.mem_cons_self _ _))
    have hk1' : GK.narrow k0 = some k1 := hk1
    have hx1' : GV.narrow v0 = some x1 := hx1
    have ih' := ih (f k1 x1 s).1
      (fun e he => hk e (List.mem_cons_of_mem _ he))
      (fun e he => hv e (List.mem_cons_of_mem _ he))
    have hcont : f k1 x1 s = ((f k1 x1 s).1, true) := by
      rw [← hf k1 x1 s]
    rw [entries_cons k0 v0 rest k1 x1 hk1' hx1']
    unfold Range at ih' ⊢
    simp only [SyncMap.Range, hk1', hx1', List.foldl_cons]
    rw [hcont]
    exact ih'

theorem foldl_collect {K V : Type} (l acc : List (K × V)) :
    List.foldl (fun st kv => (collect kv.1 kv.2 st).1) acc l = acc ++ l := by
  induction l generalizing acc with
  | nil => simp
  | cons e rest ih =>
    simp only [List.foldl_cons]
    rw [ih]
    simp [collect]

/-- Erasing the typed entries of a state whose keys and values all narrow gives back
the store. -/
theorem entries_erase (m : Map GK GV) (hk : KeyNarrowable m) (hv : Narrowable m) :
    List.map (fun kv => (GK.toAny kv.1, GV.toAny kv.2)) (entries m) = m.v := by
  obtain ⟨l⟩ := m
  induction l with
  | nil => rfl
  | cons e rest ih =>
    obtain ⟨k0, v0⟩ := e
    obtain ⟨k1, hk1⟩ := Option.isSome_iff_exists.mp (hk (k0, v0) (List.mem_cons_self _ _))
    obtain ⟨x1, hx1⟩ := Option.isSome_iff_exists.mp (hv (k0, v0) (List.mem_cons_self _ _))
    have hk1' : GK.narrow k0 = some k1 := hk1
    have hx1' : GV.narrow v0 = some x1 := hx1
    have ih' := ih (fun e he => hk e (List.mem_cons_of_mem _ he))
      (fun e he => hv e (List.mem_cons_of_mem _ he))
    rw [entries_cons k0 v0 rest k1 x1 hk1' hx1']
    simp only [List.map_cons]
    rw [GK.toAny_narrow k0 k1 hk1', GV.toAny_narrow v0 x1 hx1']
    exact congrArg _ ih'

/-- On a well-typed state the typed entries are exactly the pairs that `Load` returns,
and no key occurs twice among them. -/
theorem entries_spec (m : Map GK GV) (hw : WellTyped m) :
    (List.map Prod.fst (entries m)).Nodup ∧
      ∀ (k : K) (x : V), (k, x) ∈ entries m ↔ Load m k = Except.ok (x, true) := by
  obtain ⟨hnd, hk, hv⟩ := hw
  have her := entries_erase m hk hv
  constructor
  · have h1 : List.map GK.toAny (List.map Prod.fst (entries m)) = SyncMap.keys m.v := by
      rw [← her]
      simp [SyncMap.keys, List.map_map, Function.comp]
    have h2 : (List.map GK.toAny (List.map Prod.fst (entries m))).Nodup := by
      rw [h1]
      exact hnd
    exact List.Nodup.of_map _ h2
  · intro k x
    constructor
    · intro hmem
      have h1 : (GK.toAny k, GV.toAny x) ∈ m.v := by
        rw [← her]
        exact List.mem_map.mpr ⟨(k, x), hmem, rfl⟩
      have h2 := SyncMap.valueOf_of_mem m.v _ _ hnd h1
      rw [Load_of_present m k _ h2]
      have h3 := hv _ h1
      have h4 : GV.toAny x ≠ GoAny.nil := by
        intro h
        simp [h, GV.narrow_nil] at h3
      simp [GV.narrow_toAny x h4]
    · intro hl
      cases h : SyncMap.valueOf m.v (GK.toAny k) with
      | none =>
        rw [Load_of_absent m k h] at hl
        simp at hl
      | some a =>
        rw [Load_of_present m k a h] at hl
        cases hn : GV.narrow a with
        | none => simp [hn] at hl
        | some y =>
          simp [hn] at hl
          subst hl
          have h1 : (GK.toAny k, a) ∈ m.v := SyncMap.mem_of_valueOf m.v _ _ h
          rw [← her] at h1
          obtain ⟨⟨k', x'⟩, hmem, heq⟩ := List.mem_map.mp h1
          have hk' : GK.toAny k' = GK.toAny k := congrArg Prod.fst heq
          have hx' : GV.toAny x' = a := congrArg Prod.snd heq
          have e1 : k' = k := GK.toAny_injective _ _ hk'
          have e2 : x' = y := GV.toAny_injective _ _ (hx'.trans (GV.toAny_narrow a y hn).symm)
          rw [← e1, ← e2]
          exact hmem

/-- On a well-typed state, `Range` with a visitor that never stops returns normally
after calling it exactly once for each pair `(k, v)` with `Load(k) = (v, true)` and for
nothing else. -/
theorem Range_collect_spec (m : Map GK GV) (hw : WellTyped m) :
    Range m collect [] = (entries m, Except.ok ()) ∧
      (List.map Prod.fst (entries m)).Nodup ∧
      ∀ (k : K) (x : V), (k, x) ∈ entries m ↔ Load m k = Except.ok (x, true) := by
  refine ⟨?_, entries_spec m hw⟩
  rw [Range_of_narrowable m collect [] (fun _ _ _ => rfl) hw.2.1 hw.2.2, foldl_collect]
  simp

end Map

namespace Map

variable {T P K V : Type} [DecidableEq T] [DecidableEq P] [DynType T]
variable {GK : GoType T P K} {GV : GoType T P V}

/-- Whatever it returns, a call leaves the map as it was, or as `Store`, `Delete` or
`Clear` would leave it. -/
theorem step_cases (m : Map GK GV) (op : Op K V) :
    step m op = m ∨ (∃ k v, step m op = Store m k v) ∨ (∃ k, step m op = Delete m k) ∨
      step m op = Clear m := by
  cases op with
  | Store k v => exact Or.inr (Or.inl ⟨k, v, rfl⟩)
  | LoadOrStore k v =>
    rcases LoadOrStore_fst m k v with h | h
    · exact Or.inl h
    · exact Or.inr (Or.inl ⟨k, v, h⟩)
  | CompareAndSwap k old new =>
    rcases CompareAndSwap_fst m k old new with h | h
    · exact Or.inl h
    · exact Or.inr (Or.inl ⟨k, new, h⟩)
  | Delete k => exact Or.inr (Or.inr (Or.inl ⟨k, rfl⟩))
  | LoadAndDelete k =>
    refine Or.inr (Or.inr (Or.inl ⟨k, ?_⟩))
    show (LoadAndDelete m k).1 = Delete m k
    rw [LoadAndDelete_eq]
  | CompareAndDelete k old =>
    rcases CompareAndDelete_fst m k old with h | h
    · exact Or.inl h
    · exact Or.inr (Or.inr (Or.inl ⟨k, h⟩))
  | Clear => exact Or.inr (Or.inr (Or.inr rfl))

/-- No call introduces a second entry for a key. -/
theorem Nodup_keys_step (m : Map GK GV) (op : Op K V) (h : (SyncMap.keys m.v).Nodup) :
    (SyncMap.keys (step m op).v).Nodup := by
  rcases step_cases m op with h1 | ⟨k, v, h1⟩ | ⟨k, h1⟩ | h1 <;> rw [h1]
  · exact h
  · exact SyncMap.Nodup_keys_Store m.v _ _ h
  · exact SyncMap.Nodup_keys_Delete m.v _ h
  · simp [Clear, SyncMap.Clear, SyncMap.keys]

/-- For a key type none of whose values converts to the nil interface (a type that is
not an interface type), every call keeps all stored keys narrowable. -/
theorem KeyNarrowable_step (hK : ∀ k : K, GK.toAny k ≠ GoAny.nil) (m : Map GK GV)
    (op : Op K V) (hm : KeyNarrowable m) : KeyNarrowable (step m op) := by
  rcases step_cases m op with h1 | ⟨k, v, h1⟩ | ⟨k, h1⟩ | h1 <;> rw [h1]
  · exact hm
  · intro e he
    rcases SyncMap.fst_of_mem_Store m.v _ _ e he with h | h
    · exact hm e h
    · rw [h, GK.narrow_toAny k (hK k)]
      rfl
  · intro e he
    exact hm e (SyncMap.mem_of_mem_Delete m.v _ e he)
  · intro e he
    simp [Clear, SyncMap.Clear] at he

/-- For a key type that is not an interface type, every state reached from the empty
map has only narrowable keys. -/
theorem KeyNarrowable_run (hK : ∀ k : K, GK.toAny k ≠ GoAny.nil) (ops : List (Op K V)) :
    KeyNarrowable (run (zero : Map GK GV) ops) := by
  have key : ∀ (ops : List (Op K V)) (m : Map GK GV),
      KeyNarrowable m → KeyNarrowable (run m ops) := by
    intro ops
    induction ops with
    | nil => intro m hm; exact hm
    | cons op rest ih =>
      intro m hm
      exact ih (step m op) (KeyNarrowable_step hK m op hm)
  apply key
  intro e he
  simp [zero] at he

/-- Every state reached from the empty map holds at most one entry per key. -/
theorem Nodup_keys_run (ops : List (Op K V)) :
    (SyncMap.keys (run (zero : Map GK GV) ops).v).Nodup := by
  have key : ∀ (ops : List (Op K V)) (m : Map GK GV),
      (SyncMap.keys m.v).Nodup → (SyncMap.keys (run m ops).v).Nodup := by
    intro ops
    induction ops with
    | nil => intro m hm; exact hm
    | cons op rest ih =>
      intro m hm
      exact ih (step m op) (Nodup_keys_step m op hm)
  apply key
  simp [zero, SyncMap.keys]

/-- When neither the key type nor the value type is an interface type, every state
reached from the empty map is well typed, so `Range` with a visitor that never stops
visits exactly the pairs that `Load` returns, each once. -/
theorem WellTyped_run (hK : ∀ k : K, GK.toAny k ≠ GoAny.nil)
    (hV : ∀ v : V, GV.toAny v ≠ GoAny.nil) (ops : List (Op K V)) :
    WellTyped (run (zero : Map GK GV) ops) :=
  ⟨Nodup_keys_run ops, KeyNarrowable_run hK ops, (Narrowable_run hV ops).1⟩

/-- At every key, `Contains` is false exactly when `Load` returns the zero value with
`ok = false`, and whenever `Load` returns, its flag is what `Contains` returns. -/
theorem Contains_Load_flag (m : Map GK GV) (k : K) :
    (Contains m k = false ↔ Load m k = Except.ok (GV.zero, false)) ∧
      ∀ (x : V) (b : Bool), Load m k = Except.ok (x, b) → Contains m k = b := by
  rw [Contains_eq]
  cases h : SyncMap.valueOf m.v (GK.toAny k) with
  | none =>
    rw [Load_of_absent m k h]
    simp
  | some a =>
    rw [Load_of_present m k a h]
    cases hn : GV.narrow a with
    | none => simp
    | some y => simp

end Map

/-! ## Claims -/

section Claims

variable {T P K V : Type} [DecidableEq T] [DecidableEq P]
variable {GK : GoType T P K} {GV : GoType T P V}

/-- C1 (the code departs from the claim): on a `Map[string, error]`, after
`Store("a", nil)` the call `Load("a")` does not return `(nil, true)` but panics in the
type assertion `v.(V)`, because the nil `error` is stored as the nil interface. -/
theorem C1_Load_after_Store_nil_faults :
    Map.Load (Map.Store (Map.zero : Map stringType errorType) "a" nilError) "a" =
      Except.error Fault.narrow := by
  decide

/-- C2: when key `k` has no entry, `Load(k)` returns the zero value of `V` with
`ok = false` and no fault; the same holds on the zero-value `Map` for every key. -/
theorem C2_Load_absent (m : Map GK GV) (k : K) (h : Map.Contains m k = false) :
    Map.Load m k = Except.ok (GV.zero, false) ∧
      Map.Load (Map.zero : Map GK GV) k = Except.ok (GV.zero, false) := by
  constructor
  · apply Map.Load_of_absent
    rw [Map.Contains_eq] at h
    simpa using h
  · rfl

/-- C2 at a concrete state: on a `Map[string, int]` holding only "a", key "b" has no
entry and `Load("b")` returns `(0, false)`. -/
theorem C2_Load_absent_witness :
    Map.Contains (Map.Store (Map.zero : Map stringType intType) "a" 1) "b" = false ∧
      (Map.Load (Map.Store (Map.zero : Map stringType intType) "a" 1) "b" =
          Except.ok (intType.zero, false) ∧
        Map.Load (Map.zero : Map stringType intType) "b" =
          Except.ok (intType.zero, false)) :=
  ⟨by decide, C2_Load_absent (Map.Store (Map.zero : Map stringType intType) "a" 1) "b"
    (by decide)⟩

/-- C3 (the code departs from the claim): on an empty `Map[string, error]`, key "a" is
absent, yet `LoadOrStore("a", nil)` does not return `(nil, false)`: the store takes the
nil interface and the assertion `a.(V)` on it panics; the entry stays behind. -/
theorem C3_LoadOrStore_nil_faults :
    Map.Contains (Map.zero : Map stringType errorType) "a" = false ∧
      (Map.LoadOrStore (Map.zero : Map stringType errorType) "a" nilError).2 =
        Except.error Fault.narrow ∧
      Map.Contains (Map.LoadOrStore (Map.zero : Map stringType errorType) "a" nilError).1 "a" =
        true := by
  decide

/-- C4 (the code departs from the claim): on a `Map[string, error]` whose key "a" holds
the error `e`, `CompareAndSwap("a", e, nil)` returns true, yet `Load("a")` afterwards
does not return `(nil, true)`: it panics in the type assertion on the stored nil. -/
theorem C4_Load_after_CompareAndSwap_nil_faults :
    errorType.Comparable ∧
      (Map.CompareAndSwap (Map.Store (Map.zero : Map stringType errorType) "a" (someError 1))
        "a" (someError 1) nilError).2 = Except.ok true ∧
      Map.Load (Map.CompareAndSwap
        (Map.Store (Map.zero : Map stringType errorType) "a" (someError 1))
        "a" (someError 1) nilError).1 "a" = Except.error Fault.narrow :=
  ⟨errorType_Comparable, by decide, by decide⟩

/-- C5: for a value type whose values support `==`, `CompareAndDelete(k, old)` returns
true exactly when `k` has an entry whose value equals `old` (and never panics); after a
true result `Load(k)` returns the zero value with `ok = false`; after a false result the
map, and so the entry for `k` if any, is as it was. -/
theorem C5_CompareAndDelete [DynType T] (m : Map GK GV) (k : K) (old : V)
    (hV : GV.Comparable) :
    ((Map.CompareAndDelete m k old).2 = Except.ok true ∨
        (Map.CompareAndDelete m k old).2 = Except.ok false) ∧
      ((Map.CompareAndDelete m k old).2 = Except.ok true ↔ Map.HasEntry m k old) ∧
      ((Map.CompareAndDelete m k old).2 = Except.ok true →
        Map.Load (Map.CompareAndDelete m k old).1 k = Except.ok (GV.zero, false)) ∧
      ((Map.CompareAndDelete m k old).2 = Except.ok false →
        (Map.CompareAndDelete m k old).1 = m) := by
  obtain ⟨h1, h2, h3, h4⟩ := Map.CompareAndDelete_spec m k old hV
  refine ⟨h1, h2, ?_, h4⟩
  intro ht
  rw [h3 ht]
  exact Map.Load_Delete_same m k

/-- C5 at a concrete state: `int` supports `==`, and the statement is instantiated on a
`Map[string, int]` holding `"a" ↦ 1` with `CompareAndDelete("a", 1)`. -/
theorem C5_CompareAndDelete_witness :
    intType.Comparable ∧
      (((Map.CompareAndDelete (Map.Store (Map.zero : Map stringType intType) "a" 1) "a" 1).2 =
            Except.ok true ∨
          (Map.CompareAndDelete (Map.Store (Map.zero : Map stringType intType) "a" 1) "a" 1).2 =
            Except.ok false) ∧
        ((Map.CompareAndDelete (Map.Store (Map.zero : Map stringType intType) "a" 1) "a" 1).2 =
            Except.ok true ↔
          Map.HasEntry (Map.Store (Map.zero : Map stringType intType) "a" 1) "a" 1) ∧
        ((Map.CompareAndDelete (Map.Store (Map.zero : Map stringType intType) "a" 1) "a" 1).2 =
            Except.ok true →
          Map.Load
            (Map.CompareAndDelete (Map.Store (Map.zero : Map stringType intType) "a" 1) "a" 1).1
            "a" = Except.ok (intType.zero, false)) ∧
        ((Map.CompareAndDelete (Map.Store (Map.zero : Map stringType intType) "a" 1) "a" 1).2 =
            Except.ok false →
          (Map.CompareAndDelete (Map.Store (Map.zero : Map stringType intType) "a" 1) "a" 1).1 =
            Map.Store (Map.zero : Map stringType intType) "a" 1)) :=
  ⟨intType_Comparable,
    C5_CompareAndDelete (Map.Store (Map.zero : Map stringType intType) "a" 1) "a" 1
      intType_Comparable⟩

/-- C6 (the code departs from the claim): the state reached from the empty
`Map[string, error]` by the single call `Store("a", nil)` holds a value that does not
narrow back to `error`, and `Load("a")` on it panics in its type assertion. -/
theorem C6_reachable_state_faults :
    ¬ Map.Narrowable (Map.run (Map.zero : Map stringType errorType) [Op.Store "a" nilError]) ∧
      Map.Load (Map.run (Map.zero : Map stringType errorType) [Op.Store "a" nilError]) "a" =
        Except.error Fault.narrow := by
  refine ⟨?_, by decide⟩
  intro h
  have h1 := h (stringType.toAny "a", GoAny.nil) (by decide)
  exact absurd h1 (by decide)

/-- C7 (the code departs from the claim): on a `Map[string, error]` in which key "a"
has an entry with value nil, `LoadAndDelete("a")` does not return `(nil, true)`: the
store removes the entry and the type assertion on the removed nil value panics. -/
theorem C7_LoadAndDelete_nil_faults :
    Map.HasEntry (Map.Store (Map.zero : Map stringType errorType) "a" nilError) "a" nilError ∧
      (Map.LoadAndDelete (Map.Store (Map.zero : Map stringType errorType) "a" nilError) "a").2 =
        Except.error Fault.narrow ∧
      Map.Contains
        (Map.LoadAndDelete (Map.Store (Map.zero : Map stringType errorType) "a" nilError) "a").1
        "a" = false := by
  refine ⟨?_, by decide, by decide⟩
  unfold Map.HasEntry
  decide

/-- C8: after `Store(k, v)` followed by `Delete(k)`, `Load(k)` returns the zero value of
`V` with `ok = false`, in every map state and for every key and value. -/
theorem C8_Load_after_Store_Delete (m : Map GK GV) (k : K) (v : V) :
    Map.Load (Map.Delete (Map.Store m k v) k) k = Except.ok (GV.zero, false) :=
  Map.Load_Delete_same (Map.Store m k v) k

/-- C9: after `Clear()` the map is empty: `Contains(k)` is false and `Load(k)` returns
`(zero, false)` for every key, and `Range` returns at once without calling its visitor
(the visitor state is untouched and a counting visitor counts zero calls). -/
theorem C9_Clear_empties {σ : Type} (m : Map GK GV) (k : K) (f : K → V → σ → σ × Bool)
    (s : σ) :
    Map.Contains (Map.Clear m) k = false ∧
      Map.Load (Map.Clear m) k = Except.ok (GV.zero, false) ∧
      Map.Range (Map.Clear m) f s = (s, Except.ok ()) ∧
      (Map.Range (Map.Clear m) (counted f) (s, 0)).1.2 = 0 :=
  ⟨rfl, rfl, rfl, rfl⟩

/-- C10 (the code departs from the claim): the `Map[string, error]` left by
`Store("a", nil)` has one entry, yet `Range` with a visitor that returns false on its
first call does not call it exactly once: the assertion `value.(V)` panics before the
visitor is entered, so it is called zero times. -/
theorem C10_Range_nil_entry_skips_visitor :
    Map.Contains (Map.Store (Map.zero : Map stringType errorType) "a" nilError) "a" = true ∧
      Map.Range (Map.Store (Map.zero : Map stringType errorType) "a" nilError)
        (counted stopAtOnce) ((), 0) = (((), 0), Except.error Fault.narrow) := by
  decide

/-- C11 (the code departs from the claim): on a `Map[string, error]` holding "a" with
the nil error, and on one holding also "b" with a non-nil error, `Range` with a visitor
that always returns true does not visit each entry once: it panics in `value.(V)` at
"a", "a" is never handed to the visitor, and here neither is "b", although
`Load("b")` returns its value with `ok = true`. -/
theorem C11_Range_nil_entry_not_visited :
    (Map.Contains (Map.Store (Map.zero : Map stringType errorType) "a" nilError) "a" = true ∧
      Map.Range (Map.Store (Map.zero : Map stringType errorType) "a" nilError) collect [] =
        ([], Except.error Fault.narrow)) ∧
    (Map.Load (Map.Store (Map.Store (Map.zero : Map stringType errorType) "a" nilError)
        "b" (someError 1)) "b" = Except.ok (someError 1, true) ∧
      Map.Range (Map.Store (Map.Store (Map.zero : Map stringType errorType) "a" nilError)
        "b" (someError 1)) collect [] = ([], Except.error Fault.narrow)) :=
  ⟨⟨rfl, rfl⟩, rfl, rfl⟩


/-- C12, as stated, fails: `Map[string, []int]` is a legal instantiation although `[]int`
has no `==`, `CompareAndSwap` and `CompareAndDelete` are offered on it, and with "a"
holding a slice both calls panic at call time because `old` is not comparable. -/
theorem C12_uncomparable_accepted_then_faults :
    ¬ sliceIntType.Comparable ∧
      Map.CompareAndSwap (Map.Store (Map.zero : Map stringType sliceIntType) "a" [1])
          "a" [1] [2] =
        (Map.Store (Map.zero : Map stringType sliceIntType) "a" [1],
          Except.error Fault.uncomparable) ∧
      Map.CompareAndDelete (Map.Store (Map.zero : Map stringType sliceIntType) "a" [1])
          "a" [1] =
        (Map.Store (Map.zero : Map stringType sliceIntType) "a" [1],
          Except.error Fault.uncomparable) := by
  refine ⟨?_, rfl, rfl⟩
  intro h
  exact absurd (h [1] Tag.sliceInt (Payload.ints [1]) rfl) (by decide)

/-- C12, amended: the compare operations are offered for every value type, `[]int`
included, and a call on such a type can fail at call time because its old value is not
comparable; for a value type whose values all support `==` no call fails: each returns
true or false. -/
theorem C12_compare_checked_at_call_time [DynType T] (m : Map GK GV) (k : K) (old new : V) :
    (GV.Comparable →
        ((Map.CompareAndSwap m k old new).2 = Except.ok true ∨
            (Map.CompareAndSwap m k old new).2 = Except.ok false) ∧
          ((Map.CompareAndDelete m k old).2 = Except.ok true ∨
            (Map.CompareAndDelete m k old).2 = Except.ok false)) ∧
      ∃ (m' : Map stringType sliceIntType) (k' : String) (old' new' : List Int),
        (Map.CompareAndSwap m' k' old' new').2 = Except.error Fault.uncomparable ∧
          (Map.CompareAndDelete m' k' old').2 = Except.error Fault.uncomparable := by
  constructor
  · intro hV
    exact ⟨(Map.CompareAndSwap_spec m k old new hV).1, (Map.CompareAndDelete_spec m k old hV).1⟩
  · exact ⟨Map.Store Map.zero "a" [1], "a", [1], [2], rfl, rfl⟩

/-- C12, amended, at a concrete state: `int` supports `==`, so on a `Map[string, int]`
holding `"a" ↦ 1` both compare operations return true or false. -/
theorem C12_compare_checked_at_call_time_witness :
    intType.Comparable ∧
      (((Map.CompareAndSwap (Map.Store (Map.zero : Map stringType intType) "a" 1)
            "a" 1 2).2 = Except.ok true ∨
          (Map.CompareAndSwap (Map.Store (Map.zero : Map stringType intType) "a" 1)
            "a" 1 2).2 = Except.ok false) ∧
        ((Map.CompareAndDelete (Map.Store (Map.zero : Map stringType intType) "a" 1)
            "a" 1).2 = Except.ok true ∨
          (Map.CompareAndDelete (Map.Store (Map.zero : Map stringType intType) "a" 1)
            "a" 1).2 = Except.ok false)) :=
  ⟨intType_Comparable,
    (C12_compare_checked_at_call_time (Map.Store (Map.zero : Map stringType intType) "a" 1)
      "a" 1 2).1 intType_Comparable⟩

/-- C13: when the store holds under `k` a value that does not narrow to `V`, `Load(k)`,
`LoadAndDelete(k)` and `LoadOrStore(k, v)` end in the type-assertion panic (so none of
them returns a zero value in its place); `Range` panics on reaching such an entry,
without calling the visitor on it: at the head of the traversal for every visitor, and
after any prefix of narrowable entries for a visitor that never stops. -/
theorem C13_narrowing_fails_fast {σ : Type} (m : Map GK GV) (k : K) (a : GoAny T P) (v : V)
    (key : GoAny T P) (rest : SyncMap T P) (s : σ)
    (hk : SyncMap.valueOf m.v (GK.toAny k) = some a) (hn : GV.narrow a = none) :
    Map.Load m k = Except.error Fault.narrow ∧
      (Map.LoadAndDelete m k).2 = Except.error Fault.narrow ∧
      (Map.LoadOrStore m k v).2 = Except.error Fault.narrow ∧
      (∀ g : K → V → σ → σ × Bool,
        Map.Range (Map.mk ((key, a) :: rest) : Map GK GV) g s =
          (s, Except.error Fault.narrow)) ∧
      (∀ (pre : SyncMap T P) (f : K → V → σ → σ × Bool),
        (∀ (k' : K) (x : V) (st : σ), (f k' x st).2 = true) →
        Map.KeyNarrowable (Map.mk pre : Map GK GV) →
        Map.Narrowable (Map.mk pre : Map GK GV) →
        Map.Range (Map.mk (pre ++ (key, a) :: rest) : Map GK GV) f s =
          ((Map.Range (Map.mk pre : Map GK GV) f s).1, Except.error Fault.narrow)) := by
  have hl : Map.Load m k = Except.error Fault.narrow := by
    rw [Map.Load_of_present m k a hk]
    simp [hn]
  refine ⟨hl, ?_, ?_, ?_, ?_⟩
  · rw [Map.LoadAndDelete_eq]
    exact hl
  · simp [Map.LoadOrStore, SyncMap.LoadOrStore, hk, hn]
  · intro g
    cases hkey : GK.narrow key <;> simp [Map.Range, SyncMap.Range, hkey, hn]
  · intro pre f hf hpk hpv
    exact Map.Range_reaches_bad_value pre rest key a f s hf hpk hpv hn

/-- C13 at a concrete store state: a `Map[string, int]` whose store holds a string under
"a" (and then an entry for "b"). -/
theorem C13_narrowing_fails_fast_witness :
    (SyncMap.valueOf
        (Map.mk [(stringType.toAny "a", stringType.toAny "x")] : Map stringType intType).v
        (stringType.toAny "a") = some (stringType.toAny "x") ∧
      intType.narrow (stringType.toAny "x") = none) ∧
    (Map.Load (Map.mk [(stringType.toAny "a", stringType.toAny "x")] : Map stringType intType)
        "a" = Except.error Fault.narrow ∧
      (Map.LoadAndDelete
        (Map.mk [(stringType.toAny "a", stringType.toAny "x")] : Map stringType intType)
        "a").2 = Except.error Fault.narrow ∧
      (Map.LoadOrStore
        (Map.mk [(stringType.toAny "a", stringType.toAny "x")] : Map stringType intType)
        "a" 7).2 = Except.error Fault.narrow ∧
      (∀ g : String → Int → Unit → Unit × Bool,
        Map.Range (Map.mk ((stringType.toAny "a", stringType.toAny "x") ::
            [(stringType.toAny "b", intType.toAny 2)]) : Map stringType intType) g () =
          ((), Except.error Fault.narrow)) ∧
      (∀ (pre : SyncMap Tag Payload) (f : String → Int → Unit → Unit × Bool),
        (∀ (k' : String) (x : Int) (st : Unit), (f k' x st).2 = true) →
        Map.KeyNarrowable (Map.mk pre : Map stringType intType) →
        Map.Narrowable (Map.mk pre : Map stringType intType) →
        Map.Range (Map.mk (pre ++ (stringType.toAny "a", stringType.toAny "x") ::
            [(stringType.toAny "b", intType.toAny 2)]) : Map stringType intType) f () =
          ((Map.Range (Map.mk pre : Map stringType intType) f ()).1,
            Except.error Fault.narrow))) :=
  ⟨⟨by decide, by decide⟩,
    C13_narrowing_fails_fast
      (Map.mk [(stringType.toAny "a", stringType.toAny "x")] : Map stringType intType)
      "a" (stringType.toAny "x") 7 (stringType.toAny "a")
      [(stringType.toAny "b", intType.toAny 2)] () (by decide) (by decide)⟩


/-- C14: the scenario on an initially empty `Map[string, int]`, call by call:
`Store("a", 1)`; `Store("b", 2)`; `LoadOrStore("a", 99)` gives `(1, true)`;
`LoadOrStore("c", 3)` gives `(3, false)`; `Load("c")` gives `(3, true)`;
`CompareAndSwap("a", 1, 10)` gives true; `Load("a")` gives `(10, true)`;
`CompareAndSwap("a", 1, 20)` gives false; `Clear()`; `Contains("b")` gives false. -/
theorem C14_scenario :
    ∃ m1 m2 m3 m4 m5 m6 m7 : Map stringType intType,
      m1 = Map.Store (Map.zero : Map stringType intType) "a" 1 ∧
      m2 = Map.Store m1 "b" 2 ∧
      Map.LoadOrStore m2 "a" 99 = (m3, Except.ok (1, true)) ∧
      Map.LoadOrStore m3 "c" 3 = (m4, Except.ok (3, false)) ∧
      Map.Load m4 "c" = Except.ok (3, true) ∧
      Map.CompareAndSwap m4 "a" 1 10 = (m5, Except.ok true) ∧
      Map.Load m5 "a" = Except.ok (10, true) ∧
      Map.CompareAndSwap m5 "a" 1 20 = (m6, Except.ok false) ∧
      m7 = Map.Clear m6 ∧
      Map.Contains m7 "b" = false :=
  ⟨_, _, _, _, _, _, _, rfl, rfl, rfl, rfl, rfl, rfl, rfl, rfl, rfl, rfl⟩

/-- C15 (the code departs from the claim): on the `Map[string, error]` left by
`Store("a", nil)`, `Contains("a")` returns true, as it should, but `Load("a")` does not
report `found = true`: it panics in its type assertion. -/
theorem C15_Contains_true_Load_faults :
    Map.Contains (Map.Store (Map.zero : Map stringType errorType) "a" nilError) "a" = true ∧
      Map.Load (Map.Store (Map.zero : Map stringType errorType) "a" nilError) "a" =
        Except.error Fault.narrow ∧
      ¬ ∃ v, Map.Load (Map.Store (Map.zero : Map stringType errorType) "a" nilError) "a" =
        Except.ok (v, true) := by
  refine ⟨by decide, by decide, ?_⟩
  rintro ⟨v, hv⟩
  have h : Map.Load (Map.Store (Map.zero : Map stringType errorType) "a" nilError) "a" =
      Except.error Fault.narrow := by decide
  rw [h] at hv
  cases hv

/-- C16: on a key with no entry, `Delete` is a no-op: the map after `Delete(k)` is the
map before, so every later `Load`, `Contains` and `Range` observes the same entries. -/
theorem C16_Delete_absent_noop (m : Map GK GV) (k : K) (h : Map.Contains m k = false) :
    Map.Delete m k = m := by
  have h0 : SyncMap.valueOf m.v (GK.toAny k) = none := by
    rw [Map.Contains_eq] at h
    simpa using h
  unfold Map.Delete
  rw [SyncMap.Delete_of_absent m.v _ h0]

/-- C16 at a concrete state: a `Map[string, int]` holding "a" and "b", and the absent
key "c". -/
theorem C16_Delete_absent_noop_witness :
    Map.Contains (Map.Store (Map.Store (Map.zero : Map stringType intType) "a" 1) "b" 2)
        "c" = false ∧
      Map.Delete (Map.Store (Map.Store (Map.zero : Map stringType intType) "a" 1) "b" 2) "c" =
        Map.Store (Map.Store (Map.zero : Map stringType intType) "a" 1) "b" 2 :=
  ⟨by decide,
    C16_Delete_absent_noop
      (Map.Store (Map.Store (Map.zero : Map stringType intType) "a" 1) "b" 2) "c"
      (by decide)⟩

/-- C17: `Load` and `Contains` leave the map as it was, key present or not, and also
when the type assertion in `Load` panics; the results are those of `Load` and
`Contains`. -/
theorem C17_Load_Contains_no_side_effect (m : Map GK GV) (k : K) :
    (Map.LoadStep m k).1 = m ∧ (Map.LoadStep m k).2 = Map.Load m k ∧
      (Map.ContainsStep m k).1 = m ∧ (Map.ContainsStep m k).2 = Map.Contains m k := by
  refine ⟨?_, ?_, ?_, ?_⟩
  · unfold Map.LoadStep SyncMap.LoadStep
    cases h : SyncMap.Load m.v (GK.toAny k) with
    | mk a ok =>
      cases ok with
      | false => simp [Map.mk_v]
      | true => cases hn : GV.narrow a <;> simp [hn, Map.mk_v]
  · unfold Map.LoadStep SyncMap.LoadStep Map.Load
    cases h : SyncMap.Load m.v (GK.toAny k) with
    | mk a ok =>
      cases ok with
      | false => rfl
      | true => cases hn : GV.narrow a <;> simp [hn]
  · simp [Map.ContainsStep, SyncMap.LoadStep, Map.mk_v]
  · simp [Map.ContainsStep, SyncMap.LoadStep, Map.Contains]

/-- C19: an operation on key `k` leaves `Load(k')` as it was for every other key `k'`:
after `Store`, `Delete`, `LoadAndDelete`, `LoadOrStore`, `CompareAndSwap` and
`CompareAndDelete` on `k` (whatever they returned, also after a panic) `Load(k')` gives
what it gave before. -/
theorem C19_other_key_untouched [DynType T] (m : Map GK GV) (k k' : K) (v old new : V)
    (hne : k ≠ k') :
    Map.Load (Map.Store m k v) k' = Map.Load m k' ∧
      Map.Load (Map.Delete m k) k' = Map.Load m k' ∧
      Map.Load (Map.LoadAndDelete m k).1 k' = Map.Load m k' ∧
      Map.Load (Map.LoadOrStore m k v).1 k' = Map.Load m k' ∧
      Map.Load (Map.CompareAndSwap m k old new).1 k' = Map.Load m k' ∧
      Map.Load (Map.CompareAndDelete m k old).1 k' = Map.Load m k' := by
  have hs := fun w : V => Map.Load_Store_other m k k' w hne
  have hd := Map.Load_Delete_other m k k' hne
  refine ⟨hs v, hd, ?_, ?_, ?_, ?_⟩
  · rw [Map.LoadAndDelete_eq]
    exact hd
  · rcases Map.LoadOrStore_fst m k v with h | h <;> rw [h]
    exact hs v
  · rcases Map.CompareAndSwap_fst m k old new with h | h <;> rw [h]
    exact hs new
  · rcases Map.CompareAndDelete_fst m k old with h | h <;> rw [h]
    exact hd

/-- C19 at a concrete state: a `Map[string, int]` holding "a" and "b", operating on "a"
and observing "b". -/
theorem C19_other_key_untouched_witness :
    ("a" : String) ≠ "b" ∧
      (Map.Load (Map.Store (Map.Store (Map.Store (Map.zero : Map stringType intType)
          "a" 1) "b" 2) "a" 5) "b" =
        Map.Load (Map.Store (Map.Store (Map.zero : Map stringType intType) "a" 1) "b" 2) "b" ∧
      Map.Load (Map.Delete (Map.Store (Map.Store (Map.zero : Map stringType intType)
          "a" 1) "b" 2) "a") "b" =
        Map.Load (Map.Store (Map.Store (Map.zero : Map stringType intType) "a" 1) "b" 2) "b" ∧
      Map.Load (Map.LoadAndDelete (Map.Store (Map.Store (Map.zero : Map stringType intType)
          "a" 1) "b" 2) "a").1 "b" =
        Map.Load (Map.Store (Map.Store (Map.zero : Map stringType intType) "a" 1) "b" 2) "b" ∧
      Map.Load (Map.LoadOrStore (Map.Store (Map.Store (Map.zero : Map stringType intType)
          "a" 1) "b" 2) "a" 5).1 "b" =
        Map.Load (Map.Store (Map.Store (Map.zero : Map stringType intType) "a" 1) "b" 2) "b" ∧
      Map.Load (Map.CompareAndSwap (Map.Store (Map.Store (Map.zero : Map stringType intType)
          "a" 1) "b" 2) "a" 1 9).1 "b" =
        Map.Load (Map.Store (Map.Store (Map.zero : Map stringType intType) "a" 1) "b" 2) "b" ∧
      Map.Load (Map.CompareAndDelete (Map.Store (Map.Store (Map.zero : Map stringType intType)
          "a" 1) "b" 2) "a" 1).1 "b" =
        Map.Load (Map.Store (Map.Store (Map.zero : Map stringType intType) "a" 1) "b" 2) "b") :=
  ⟨by decide,
    C19_other_key_untouched
      (Map.Store (Map.Store (Map.zero : Map stringType intType) "a" 1) "b" 2)
      "a" "b" 5 1 9 (by decide)⟩

/-- C20 (the code departs from the claim): the state reached from the empty
`Map[error, int]` by the single call `Store(nil, 1)` holds the nil interface as a key;
it does not narrow back to `error`, and `Range` panics in `key.(K)` before the visitor
is called at all. -/
theorem C20_Range_nil_key_faults :
    ¬ Map.KeyNarrowable
        (Map.run (Map.zero : Map errorType intType) [Op.Store nilError 1]) ∧
      Map.Range (Map.run (Map.zero : Map errorType intType) [Op.Store nilError 1])
        (counted collect) ([], 0) = (([], 0), Except.error Fault.narrow) := by
  refine ⟨?_, by decide⟩
  intro h
  have h1 := h (GoAny.nil, intType.toAny 1) (by decide)
  exact absurd h1 (by decide)


end Claims

end Syncmap
